import Mathlib

/-!
Verification development for the qa-api-testing-framework repository.

The repository is a pytest-based black-box API test harness.  The parts
embedded here are the ones its specification makes claims about:

* `SchemaManager` (src/utils/schema_manager.py): download/cache/query of an
  OpenAPI document (`download_schema`, `get_endpoint_schema`,
  `get_all_test_endpoints`);
* the shared result aggregator `_endpoint_results` (src/conftest.py) and the
  session-teardown summary `_print_endpoint_discovery_summary`;
* the recording operations test functions perform on the aggregator
  (src/tests/discovery/test_endpoint_discovery.py,
  src/tests/performance/test_concurrent_requests.py);
* the two auth-token fixtures `auth_token` and `fresh_auth_token`
  (src/conftest.py).

Python `str` values are modelled as Lean `String`; the Python string
operations the code uses (`str.lower`, `str.split`, `str.startswith`,
`int(...)`) are re-implemented below on the character list of the string so
that every definition evaluates inside the kernel.  Python `float` response
times are modelled as `ℚ`; HTTP status codes as `ℕ`.  Python dicts are
modelled as association lists with Python's insertion-order update
semantics.
-/

namespace QaHarness

/-! ### Python string primitives -/

/-- Lowercasing of one character, as Python's `str.lower` acts on the ASCII
letters used for HTTP method names (`schema_manager.py` only lowercases
method strings such as `"GET"`). -/
def asciiLower (c : Char) : Char :=
  if 65 ≤ c.toNat ∧ c.toNat ≤ 90 then Char.ofNat (c.toNat + 32) else c

/-- Python `s.lower()` on a method-name string. -/
def pyLower (s : String) : String :=
  ⟨s.data.map asciiLower⟩

/-- Python `s.startswith(p)`. -/
def startswith (s p : String) : Bool :=
  List.isPrefixOf p.data s.data

/-- Helper for Python `s.split(sep)`: accumulates the current chunk in
reverse while scanning the remaining characters. -/
def splitCharsAux (sep : Char) : List Char → List Char → List (List Char)
  | cur, [] => [cur.reverse]
  | cur, c :: cs =>
    if c = sep then cur.reverse :: splitCharsAux sep [] cs
    else splitCharsAux sep (c :: cur) cs

/-- Python `s.split(sep)` for a one-character separator (the code only uses
`x.split('/')`). -/
def pySplit (s : String) (sep : Char) : List String :=
  (splitCharsAux sep [] s.data).map (fun cs => ⟨cs⟩)

/-- Python `x.split('/')[-1]`: `split` never returns an empty list, so the
`[-1]` index is total; the default of `getD` is never used. -/
def lastSlashSegment (s : String) : String :=
  ((pySplit s '/').getLast?).getD ""

/-- Whitespace stripped by Python `int(...)` before parsing. -/
def isPyWs (c : Char) : Bool :=
  decide (c.toNat = 32 ∨ c.toNat = 9 ∨ c.toNat = 10 ∨ c.toNat = 13 ∨
          c.toNat = 11 ∨ c.toNat = 12)

/-- Python `str.strip()` on a character list. -/
def pyStrip (cs : List Char) : List Char :=
  ((cs.dropWhile isPyWs).reverse.dropWhile isPyWs).reverse

/-- Digit-string parser of Python `int(...)`: after a first digit has been
consumed into `acc`, each later group is either a digit or an underscore
that must be followed by a digit. -/
def pyDigitsAux : Nat → List Char → Option Nat
  | acc, [] => some acc
  | acc, '_' :: c :: cs =>
    if c.isDigit then pyDigitsAux (acc * 10 + (c.toNat - 48)) cs else none
  | _, ['_'] => none
  | acc, c :: cs =>
    if c.isDigit then pyDigitsAux (acc * 10 + (c.toNat - 48)) cs else none

/-- Unsigned part of Python `int(...)`: one digit, then `pyDigitsAux`. -/
def pyDigits : List Char → Option Nat
  | [] => none
  | c :: cs => if c.isDigit then pyDigitsAux (c.toNat - 48) cs else none

/-- Python `int(s)` for a string argument: strip whitespace, optional sign,
then a digit string; `none` models the `ValueError` Python raises. -/
def pyInt? (s : String) : Option Int :=
  match pyStrip s.data with
  | '+' :: rest => (pyDigits rest).map Int.ofNat
  | '-' :: rest => (pyDigits rest).map (fun n => -(n : Int))
  | rest => (pyDigits rest).map Int.ofNat

/-! ### Python string ordering (used by `sorted` on strings) -/

/-- Lexicographic comparison of code-point lists, as Python compares
strings: at the first differing position the code points decide. -/
def cpLe : List Nat → List Nat → Bool
  | [], _ => true
  | _ :: _, [] => false
  | a :: as, b :: bs => if a = b then cpLe as bs else decide (a < b)

/-- Python string order `a <= b`, by code points. -/
def strLe (a b : String) : Prop :=
  cpLe (a.data.map Char.toNat) (b.data.map Char.toNat) = true

instance : DecidableRel strLe :=
  fun a b => inferInstanceAs (Decidable (_ = true))

instance : IsTotal String strLe :=
  ⟨by
    intro s t
    suffices h : ∀ xs ys : List Nat, cpLe xs ys = true ∨ cpLe ys xs = true from
      h _ _
    intro xs
    induction xs with
    | nil => exact fun ys => Or.inl rfl
    | cons a as ih =>
      intro ys
      cases ys with
      | nil => exact Or.inr rfl
      | cons b bs =>
        by_cases hab : a = b
        · subst hab
          simpa [cpLe] using ih bs
        · rcases Nat.lt_or_ge a b with h | h
          · exact Or.inl (by simp [cpLe, hab, h])
          · have hba : b ≠ a := fun e => hab e.symm
            have : b < a := lt_of_le_of_ne h (fun e => hab e.symm)
            exact Or.inr (by simp [cpLe, hba, this])⟩

instance : IsTrans String strLe :=
  ⟨by
    intro s t u h1 h2
    revert h1 h2
    suffices h : ∀ xs ys zs : List Nat, cpLe xs ys = true → cpLe ys zs = true →
        cpLe xs zs = true from h _ _ _
    intro xs
    induction xs with
    | nil => exact fun ys zs _ _ => rfl
    | cons a as ih =>
      intro ys zs h1 h2
      cases ys with
      | nil => simp [cpLe] at h1
      | cons b bs =>
        cases zs with
        | nil => simp [cpLe] at h2
        | cons c cs =>
          by_cases hab : a = b <;> by_cases hbc : b = c
          · subst hab; subst hbc
            simp [cpLe] at h1 h2 ⊢
            exact ih bs cs h1 h2
          · subst hab
            simp [cpLe, hbc] at h2 ⊢
            exact h2
          · subst hbc
            simp [cpLe, hab] at h1 ⊢
            exact h1
          · simp [cpLe, hab] at h1
            simp [cpLe, hbc] at h2
            have hac : a < c := Nat.lt_trans h1 h2
            simp [cpLe, Nat.ne_of_lt hac, hac]⟩

/-! ### SchemaManager (src/utils/schema_manager.py) -/

/-- The `paths` section of an OpenAPI document: path string → (method string
→ endpoint schema).  The endpoint-schema values are opaque to the manager,
so they are a type parameter.  Python dict semantics: an association list
looked up by first match (real documents have unique keys). -/
abbrev PathsMap (α : Type) := List (String × List (String × α))

/-- A parsed OpenAPI document, as far as `SchemaManager` inspects it:
`schema.get("paths", {})` distinguishes a present `paths` key from an
absent one. -/
structure SchemaDoc (α : Type) where
  paths : Option (PathsMap α)

/-- Errors raised by `get_endpoint_schema` (`ValueError` in the source). -/
inductive SchemaError where
  | endpointNotFound (path : String)
  | methodNotSupported (method : String) (path : String)
deriving DecidableEq, Repr

/-- Message text of each `ValueError`, as formatted in the source. -/
def SchemaError.message : SchemaError → String
  | .endpointNotFound path => "Endpoint " ++ path ++ " not found in schema"
  | .methodNotSupported method path =>
      "Method " ++ method ++ " not supported for " ++ path

/-- `SchemaManager.get_endpoint_schema(path, method)`: checks
`path not in schema.get("paths", {})`, then `method.lower() not in
endpoint`, then returns `endpoint[method.lower()]`. -/
def get_endpoint_schema {α : Type} (doc : SchemaDoc α) (path : String)
    (method : String) : Except SchemaError α :=
  let ps := doc.paths.getD []
  match ps.find? (fun p => decide (p.1 = path)) with
  | none => .error (.endpointNotFound path)
  | some pe =>
    match pe.2.find? (fun q => decide (q.1 = pyLower method)) with
    | none => .error (.methodNotSupported method path)
    | some qv => .ok qv.2

/-- `SchemaManager.get_all_test_endpoints()`: iterate over
`schema.get("paths", {}).keys()`, keep the ones starting with
`"/api/test/"`, and return them `sorted(...)`. -/
def get_all_test_endpoints {α : Type} (doc : SchemaDoc α) : List String :=
  let keys := (doc.paths.getD []).map Prod.fst
  List.insertionSort strLe (keys.filter (fun p => startswith p "/api/test/"))

/-- On-disk state seen by `download_schema`: the cached JSON file is either
absent or holds a serialized document. -/
structure CacheState (β : Type) where
  cacheFile : Option β
deriving Repr, DecidableEq

/-- Everything observable about one `download_schema` call: the returned
path or the propagated `requests` exception, the on-disk state after the
call, and whether an HTTP GET was performed. -/
structure DownloadOutcome (β ε : Type) where
  result : Except ε String
  state : CacheState β
  requested : Bool

/-- The fixed cache path `self.schema_file = schema_dir / "openapi_schema.json"`. -/
def schemaFilePath (schemaDir : String) : String :=
  schemaDir ++ "/openapi_schema.json"

/-- `SchemaManager.download_schema(force)`: if the cache file exists and
`force` is false, return its path unchanged with no request; otherwise GET
the YAML endpoint (`http` is the outcome of that request), `yaml.safe_load`
the text (`parse`), write the result to the cache file as JSON, and return
the same path.  A `requests.exceptions.RequestException` (connection error,
timeout, or `raise_for_status`) is re-raised before the file is opened. -/
def download_schema {β ε : Type} (schemaDir : String) (st : CacheState β)
    (force : Bool) (http : Except ε String) (parse : String → β) :
    DownloadOutcome β ε :=
  if st.cacheFile.isSome ∧ force = false then
    ⟨.ok (schemaFilePath schemaDir), st, false⟩
  else
    match http with
    | .error e => ⟨.error e, st, true⟩
    | .ok text => ⟨.ok (schemaFilePath schemaDir), ⟨some (parse text)⟩, true⟩

/-! ### Result aggregator `_endpoint_results` (src/conftest.py lines 30-36) -/

/-- One value of the `_endpoint_results` default-factory mapping, i.e. the
dict literal `{"status_codes": [], "response_times": [], "test_count": 0,
"passed": 0, "failed": 0}`. -/
structure EndpointData where
  status_codes : List Nat
  response_times : List ℚ
  test_count : Nat
  passed : Nat
  failed : Nat
deriving Repr, DecidableEq

/-- The entry produced by the default factory of `_endpoint_results`. -/
def defaultEntry : EndpointData :=
  ⟨[], [], 0, 0, 0⟩

/-- The keys of the dict literal returned by the default factory, in source
order. -/
def endpointEntryKeys : List String :=
  ["status_codes", "response_times", "test_count", "passed", "failed"]

/-- The `_endpoint_results` mapping: endpoint path → accumulated data, with
Python dict insertion order. -/
abbrev ResultsDict := List (String × EndpointData)

/-- Whether the mapping already holds an entry for key `k`. -/
def ddHasKey (m : ResultsDict) (k : String) : Bool :=
  m.any (fun p => decide (p.1 = k))

/-- The stored entry for `k`, if any. -/
def ddFind? (m : ResultsDict) (k : String) : Option EndpointData :=
  (m.find? (fun p => decide (p.1 = k))).map Prod.snd

/-- The entry `defaultdict` access `_endpoint_results[k]` evaluates to. -/
def ddLookup (m : ResultsDict) (k : String) : EndpointData :=
  (ddFind? m k).getD defaultEntry

/-- Reading `_endpoint_results[k]` on a `defaultdict`: a present entry is
returned with the mapping unchanged; a missing key makes the default
factory run and insert a fresh entry at the end. -/
def ddAccess (m : ResultsDict) (k : String) : EndpointData × ResultsDict :=
  match m.find? (fun p => decide (p.1 = k)) with
  | some p => (p.2, m)
  | none => (defaultEntry, m ++ [(k, defaultEntry)])

/-- Mutating `_endpoint_results[k]` through `f` (an append to one of its
lists or a `+= 1` on one of its counters): the entry is updated in place,
or created by the default factory first when absent. -/
def ddUpdate (m : ResultsDict) (k : String) (f : EndpointData → EndpointData) :
    ResultsDict :=
  if ddHasKey m k then
    m.map (fun p => if p.1 = k then (p.1, f p.2) else p)
  else
    m ++ [(k, f defaultEntry)]

/-- The five primitive mutations the repository's test functions perform on
`_endpoint_results` (every aggregator write in the test modules is a
`["status_codes"].append`, a `["response_times"].append`, or a `+= 1` on
`"test_count"`, `"passed"` or `"failed"`). -/
inductive RecordOp where
  | appendStatus (ep : String) (code : Nat)
  | appendTime (ep : String) (t : ℚ)
  | incTestCount (ep : String)
  | incPassed (ep : String)
  | incFailed (ep : String)

/-- Effect of one recording operation on the mapping. -/
def applyOp (m : ResultsDict) : RecordOp → ResultsDict
  | .appendStatus ep c =>
      ddUpdate m ep (fun d => { d with status_codes := d.status_codes ++ [c] })
  | .appendTime ep t =>
      ddUpdate m ep (fun d => { d with response_times := d.response_times ++ [t] })
  | .incTestCount ep =>
      ddUpdate m ep (fun d => { d with test_count := d.test_count + 1 })
  | .incPassed ep =>
      ddUpdate m ep (fun d => { d with passed := d.passed + 1 })
  | .incFailed ep =>
      ddUpdate m ep (fun d => { d with failed := d.failed + 1 })

/-- Effect of a session's worth of recording operations, in order. -/
def applyOps (m : ResultsDict) (ops : List RecordOp) : ResultsDict :=
  ops.foldl applyOp m

/-- Recording sequence of `TestEndpointsCommon.test_basic_get`
(src/tests/discovery/test_endpoint_discovery.py lines 47-54) after a
response with status `s` and elapsed time `t`. -/
def testBasicGetOps (ep : String) (s : Nat) (t : ℚ) : List RecordOp :=
  [.appendStatus ep s, .appendTime ep t, .incTestCount ep] ++
    (if s = 200 then [.incPassed ep] else [.incFailed ep])

/-! ### Concurrent worker `do_request`
(src/tests/performance/test_concurrent_requests.py lines 137-157) -/

/-- Outcome of the worker's HTTP GET: a response, or a
`requests.RequestException`; `elapsed` is `time.time() - start`. -/
inductive HttpOutcome where
  | success (status : Nat) (elapsed : ℚ)
  | failure (err : String) (elapsed : ℚ)

/-- The dict `do_request` returns (`"error"` is only set on failure). -/
structure DoRequestRet where
  i : Nat
  status : Nat
  time : ℚ
  ok : Bool
  err : Option String
deriving Repr, DecidableEq

/-- The worker `do_request(i)`: on a response it appends the status code
and elapsed time, bumps `test_count` and `passed`/`failed`, and returns
`ok = (status == 200)`; on a `requests.RequestException` it bumps only
`test_count` and `failed` and returns `status 0`, `ok False`. -/
def do_request (m : ResultsDict) (endpointPath : String) (i : Nat)
    (att : HttpOutcome) : ResultsDict × DoRequestRet :=
  match att with
  | .success s t =>
    let m1 := ddUpdate m endpointPath
      (fun d => { d with status_codes := d.status_codes ++ [s] })
    let m2 := ddUpdate m1 endpointPath
      (fun d => { d with response_times := d.response_times ++ [t] })
    let m3 := ddUpdate m2 endpointPath
      (fun d => { d with test_count := d.test_count + 1 })
    let m4 :=
      if s = 200 then
        ddUpdate m3 endpointPath (fun d => { d with passed := d.passed + 1 })
      else
        ddUpdate m3 endpointPath (fun d => { d with failed := d.failed + 1 })
    (m4, ⟨i, s, t, decide (s = 200), none⟩)
  | .failure e t =>
    let m1 := ddUpdate m endpointPath
      (fun d => { d with test_count := d.test_count + 1 })
    let m2 := ddUpdate m1 endpointPath
      (fun d => { d with failed := d.failed + 1 })
    (m2, ⟨i, 0, t, false, some e⟩)

/-! ### Session-teardown summary `_print_endpoint_discovery_summary`
(src/conftest.py lines 120-190) -/

/-- The loop `for code in data["status_codes"]:
`status_distribution[code] = status_distribution.get(code, 0) + 1`, one
step: Python dict update keeps a present key in place and appends a new
key at the end. -/
def distIncr (d : List (Nat × Nat)) (c : Nat) : List (Nat × Nat) :=
  if d.any (fun p => decide (p.1 = c)) then
    d.map (fun p => if p.1 = c then (p.1, p.2 + 1) else p)
  else
    d ++ [(c, 1)]

/-- The `status_distribution` dict built from an endpoint's recorded status
codes. -/
def statusDistribution (codes : List Nat) : List (Nat × Nat) :=
  codes.foldl distIncr []

/-- Value stored under key `c` of a distribution dict, if present. -/
def distGet (d : List (Nat × Nat)) (c : Nat) : Option Nat :=
  (d.find? (fun p => decide (p.1 = c))).map Prod.snd

/-- Python `c in status_distribution` (key membership). -/
def distMem (d : List (Nat × Nat)) (c : Nat) : Bool :=
  d.any (fun p => decide (p.1 = c))

/-- The summary's three-way classification of one endpoint:
`has_success = 200 in data["status_codes"]`, then `"OK"` when additionally
`len(status_distribution) == 1 and 200 in status_distribution`, else
`"UNSTABLE"` when `has_success`, else `"FAILED"`. -/
def classifyEndpoint (codes : List Nat) : String :=
  let dist := statusDistribution codes
  if 200 ∈ codes ∧ dist.length = 1 ∧ distMem dist 200 = true then "OK"
  else if 200 ∈ codes then "UNSTABLE"
  else "FAILED"

/-- The summary's `avg_time`: `sum(times) / len(times) if times else 0`. -/
def avgResponseTime (times : List ℚ) : ℚ :=
  if times.isEmpty then 0 else times.sum / (times.length : ℚ)

/-- Sort key of the summary's endpoint ordering:
`int(x.split('/')[-1])`; `none` models the `ValueError` raised when the
last path segment is not a decimal integer. -/
def summarySortKey? (s : String) : Option Int :=
  pyInt? (lastSlashSegment s)

/-- The summary's `sorted(_endpoint_results.keys(), key=...)`: `none`
models the call raising `ValueError` because some key's last segment does
not parse as an integer. -/
def sortEndpoints? (keys : List String) : Option (List String) :=
  if ∀ k ∈ keys, (summarySortKey? k).isSome then
    some (List.insertionSort
      (fun a b => ((summarySortKey? a).getD 0 : Int) ≤ (summarySortKey? b).getD 0)
      keys)
  else
    none

/-! ### Auth fixtures (src/conftest.py lines 217-253) -/

/-- Modelled from the spec: `constants.py` is not among the provided source
files; `HTTP_OK` is the 200 success status that the spec's classification,
fixtures and tests compare against. -/
def HTTP_OK : Nat := 200

/-- A parsed auth response: the HTTP status and the JSON body as a string
map (the fixtures only read `"access_token"`). -/
structure AuthResponse where
  status : Nat
  body : List (String × String)

/-- How an auth fixture can fail: `fresh_auth_token`'s
`Exception("Failed to generate token: ...")` on a bad status, or the
`KeyError` from `response.json()["access_token"]`. -/
inductive AuthFailure where
  | badStatus (status : Nat)
  | missingKey (key : String)
deriving DecidableEq, Repr

/-- Observable behavior of one fixture invocation: the `verify` flag it
passed to `requests.post` and the token it returned or the error it
raised. -/
structure AuthCall where
  verify : Bool
  result : Except AuthFailure String

/-- The session-scoped `auth_token` fixture: posts with
`verify=SSL_VERIFY`; a non-200 status is only logged, after which
`response.json()["access_token"]` is evaluated regardless. -/
def auth_token (sslVerify : Bool) (resp : AuthResponse) : AuthCall :=
  { verify := sslVerify
    result :=
      match resp.body.find? (fun p => decide (p.1 = "access_token")) with
      | some p => .ok p.2
      | none => .error (.missingKey "access_token") }

/-- The function-scoped `fresh_auth_token` fixture: posts with
`verify=False` unconditionally, raises on any status other than
`HTTP_OK = 200` before reading the body, and otherwise returns
`token_data["access_token"]`. -/
def fresh_auth_token (sslVerify : Bool) (resp : AuthResponse) : AuthCall :=
  { verify := false
    result :=
      if resp.status ≠ HTTP_OK then .error (.badStatus resp.status)
      else
        match resp.body.find? (fun p => decide (p.1 = "access_token")) with
        | some p => .ok p.2
        | none => .error (.missingKey "access_token") }

/-! ### Lemmas about the status-code distribution dict -/

theorem distGet_mapIncr (d : List (Nat × Nat)) (c x : Nat) :
    distGet (d.map (fun p => if p.1 = c then (p.1, p.2 + 1) else p)) x =
      if x = c then (distGet d x).map (· + 1) else distGet d x := by
  have hcomp :
      ((fun q : Nat × Nat => decide (q.1 = x)) ∘
        (fun p : Nat × Nat => if p.1 = c then (p.1, p.2 + 1) else p)) =
        fun p : Nat × Nat => decide (p.1 = x) := by
    funext p
    by_cases h : p.1 = c <;> simp [Function.comp, h]
  unfold distGet
  rw [List.find?_map, hcomp]
  cases hfind : List.find? (fun p : Nat × Nat => decide (p.1 = x)) d with
  | none => by_cases hxc : x = c <;> simp [hxc]
  | some p =>
    have hpx : p.1 = x := by simpa using List.find?_some hfind
    by_cases hxc : x = c
    · subst hxc
      simp [hpx]
    · have hpc : ¬ p.1 = c := by rw [hpx]; exact hxc
      simp [hxc, hpc]

theorem distGet_append_single (d : List (Nat × Nat)) (c x : Nat)
    (h : ∀ p ∈ d, p.1 ≠ c) :
    distGet (d ++ [(c, 1)]) x =
      if x = c then some 1 else distGet d x := by
  by_cases hxc : x = c
  · subst hxc
    have hfind : d.find? (fun p => decide (p.1 = x)) = none :=
      List.find?_eq_none.mpr
        (fun p hp => by simpa using h p hp)
    simp [distGet, List.find?_append, hfind]
  · have h1 : List.find? (fun p : Nat × Nat => decide (p.1 = x)) [(c, 1)] = none := by
      rw [List.find?_cons_of_neg _ (by simpa using fun h : c = x => hxc h.symm)]
      rfl
    rw [distGet, List.find?_append, h1, Option.or_none, if_neg hxc]
    rfl

theorem distGet_distIncr (d : List (Nat × Nat)) (c x : Nat) :
    distGet (distIncr d c) x =
      if x = c then some ((distGet d c).getD 0 + 1) else distGet d x := by
  unfold distIncr
  by_cases hany : d.any (fun p => decide (p.1 = c)) = true
  · rw [if_pos hany, distGet_mapIncr]
    have hfs : (List.find? (fun p : Nat × Nat => decide (p.1 = c)) d).isSome = true :=
      List.find?_isSome.mpr (List.any_eq_true.mp hany)
    rcases Option.isSome_iff_exists.mp hfs with ⟨q, hq⟩
    have hv : distGet d c = some q.2 := by simp [distGet, hq]
    by_cases hxc : x = c
    · subst hxc
      simp [hv]
    · simp [hxc]
  · rw [if_neg hany]
    have hno : ∀ p ∈ d, p.1 ≠ c := by
      intro p hp
      by_contra he
      exact hany (List.any_eq_true.mpr ⟨p, hp, by simpa using he⟩)
    rw [distGet_append_single d c x hno]
    have hfind : d.find? (fun p => decide (p.1 = c)) = none :=
      List.find?_eq_none.mpr (fun p hp => by simpa using hno p hp)
    have hnone : distGet d c = none := by simp [distGet, hfind]
    by_cases hxc : x = c <;> simp [hxc, hnone]

theorem distGet_foldl (codes : List Nat) (d : List (Nat × Nat)) (x : Nat) :
    distGet (codes.foldl distIncr d) x =
      if x ∈ codes then some ((distGet d x).getD 0 + codes.count x)
      else distGet d x := by
  induction codes generalizing d with
  | nil => simp
  | cons c cs ih =>
    simp only [List.foldl_cons]
    rw [ih (distIncr d c)]
    by_cases hxc : x = c
    · subst hxc
      have hm : x ∈ x :: cs := List.mem_cons_self _ _
      by_cases hxs : x ∈ cs
      · rw [if_pos hxs, if_pos hm, distGet_distIncr, if_pos rfl]
        simp only [Option.getD_some, Option.some.injEq, List.count_cons]
        simp
        omega
      · rw [if_neg hxs, if_pos hm, distGet_distIncr, if_pos rfl]
        simp only [Option.some.injEq, List.count_cons]
        simp [List.count_eq_zero.mpr hxs]
    · have hm : (x ∈ c :: cs) ↔ (x ∈ cs) := by
        simp [List.mem_cons, hxc]
      by_cases hxs : x ∈ cs
      · rw [if_pos hxs, if_pos (hm.mpr hxs), distGet_distIncr, if_neg hxc]
        simp only [Option.some.injEq, List.count_cons]
        have : ¬ (c == x) = true := by simpa using Ne.symm hxc
        simp [this]
      · rw [if_neg hxs, if_neg (fun h => hxs (hm.mp h)), distGet_distIncr, if_neg hxc]

/-- Histogram correctness: the distribution maps each observed code to its
number of occurrences, and holds no other key. -/
theorem distGet_statusDistribution (codes : List Nat) (x : Nat) :
    distGet (statusDistribution codes) x =
      if x ∈ codes then some (codes.count x) else none := by
  have h := distGet_foldl codes [] x
  simpa [statusDistribution, distGet] using h

theorem distMem_eq_isSome (d : List (Nat × Nat)) (x : Nat) :
    distMem d x = (distGet d x).isSome := by
  by_cases h : distMem d x = true
  · have hfs : (List.find? (fun p : Nat × Nat => decide (p.1 = x)) d).isSome = true :=
      List.find?_isSome.mpr (List.any_eq_true.mp (by simpa [distMem] using h))
    rcases Option.isSome_iff_exists.mp hfs with ⟨q, hq⟩
    rw [h]
    simp [distGet, hq]
  · have hb : distMem d x = false := Bool.eq_false_iff.mpr h
    have hno : ∀ p ∈ d, ¬ (fun p : Nat × Nat => decide (p.1 = x)) p = true :=
      List.any_eq_false.mp (by simpa [distMem] using hb)
    have hfind : List.find? (fun p : Nat × Nat => decide (p.1 = x)) d = none :=
      List.find?_eq_none.mpr hno
    rw [hb]
    simp [distGet, hfind]

theorem distMem_statusDistribution (codes : List Nat) (x : Nat) :
    distMem (statusDistribution codes) x = true ↔ x ∈ codes := by
  rw [distMem_eq_isSome, distGet_statusDistribution]
  by_cases h : x ∈ codes <;> simp [h]

theorem foldl_distIncr_const (cs : List Nat) (c : Nat) (k : Nat)
    (h : ∀ x ∈ cs, x = c) :
    cs.foldl distIncr [(c, k)] = [(c, k + cs.length)] := by
  induction cs generalizing k with
  | nil => simp
  | cons a as ih =>
    have hac : a = c := h a (by simp)
    subst hac
    have : distIncr [(a, k)] a = [(a, k + 1)] := by
      simp [distIncr]
    simp only [List.foldl_cons, this]
    rw [ih (k + 1) (fun x hx => h x (by simp [hx]))]
    simp only [List.length_cons]
    rw [show k + 1 + as.length = k + (as.length + 1) from by omega]

theorem statusDistribution_const (codes : List Nat) (c : Nat)
    (hne : codes ≠ []) (h : ∀ x ∈ codes, x = c) :
    statusDistribution codes = [(c, codes.length)] := by
  cases codes with
  | nil => exact absurd rfl hne
  | cons a as =>
    have hac : a = c := h a (by simp)
    subst hac
    have h0 : distIncr [] a = [(a, 1)] := by simp [distIncr]
    simp only [statusDistribution, List.foldl_cons, h0]
    rw [foldl_distIncr_const as a 1 (fun x hx => h x (by simp [hx]))]
    simp only [List.length_cons]
    rw [Nat.add_comm 1 as.length]

/-- The `"OK"` branch condition of the summary holds exactly when a 200 was
observed and nothing else was. -/
theorem okCond_iff (codes : List Nat) :
    (200 ∈ codes ∧ (statusDistribution codes).length = 1 ∧
        distMem (statusDistribution codes) 200 = true) ↔
      (200 ∈ codes ∧ ∀ c ∈ codes, c = 200) := by
  constructor
  · rintro ⟨hmem, hlen, hdm⟩
    refine ⟨hmem, ?_⟩
    rcases List.length_eq_one.mp hlen with ⟨q, hq⟩
    rw [hq] at hdm
    have hq200 : q.1 = 200 := by
      simpa [distMem] using hdm
    intro c hc
    have hmm : distMem (statusDistribution codes) c = true :=
      (distMem_statusDistribution codes c).mpr hc
    rw [hq] at hmm
    have hqc : q.1 = c := by simpa [distMem] using hmm
    omega
  · rintro ⟨hmem, hall⟩
    have hne : codes ≠ [] := by
      intro h
      rw [h] at hmem
      simp at hmem
    rw [statusDistribution_const codes 200 hne hall]
    refine ⟨hmem, by simp, ?_⟩
    simp [distMem]

/-! ### Lemmas about the defaultdict aggregator -/

theorem ddLookup_ddUpdate (m : ResultsDict) (k : String)
    (f : EndpointData → EndpointData) (ep : String) :
    ddLookup (ddUpdate m k f) ep =
      if ep = k then f (ddLookup m k) else ddLookup m ep := by
  unfold ddUpdate
  by_cases hany : ddHasKey m k = true
  · rw [if_pos hany]
    have hcomp :
        ((fun q : String × EndpointData => decide (q.1 = ep)) ∘
          (fun p : String × EndpointData => if p.1 = k then (p.1, f p.2) else p)) =
          fun p : String × EndpointData => decide (p.1 = ep) := by
      funext p
      by_cases h : p.1 = k <;> simp [Function.comp, h]
    unfold ddLookup ddFind?
    rw [List.find?_map, hcomp]
    by_cases hek : ep = k
    · subst hek
      have hfs :
          (List.find? (fun p : String × EndpointData => decide (p.1 = ep)) m).isSome
            = true :=
        List.find?_isSome.mpr (List.any_eq_true.mp (by simpa [ddHasKey] using hany))
      rcases Option.isSome_iff_exists.mp hfs with ⟨q, hq⟩
      have hqk : q.1 = ep := by simpa using List.find?_some hq
      rw [hq]
      simp [hqk]
    · cases hfind : List.find? (fun p : String × EndpointData => decide (p.1 = ep)) m with
      | none => simp [hek]
      | some p =>
        have hpe : p.1 = ep := by simpa using List.find?_some hfind
        have hpk : ¬ p.1 = k := by rw [hpe]; exact hek
        simp [hek, hpk]
  · rw [if_neg hany]
    have hno :
        ∀ p ∈ m, ¬ (fun p : String × EndpointData => decide (p.1 = k)) p = true :=
      List.any_eq_false.mp (by simpa [ddHasKey] using Bool.eq_false_iff.mpr hany)
    by_cases hek : ep = k
    · subst hek
      have hfind : List.find? (fun p : String × EndpointData => decide (p.1 = ep)) m = none :=
        List.find?_eq_none.mpr hno
      have h2 : List.find? (fun p : String × EndpointData => decide (p.1 = ep))
          [(ep, f defaultEntry)] = some (ep, f defaultEntry) :=
        List.find?_cons_of_pos _ (by simp)
      unfold ddLookup ddFind?
      rw [List.find?_append, hfind, h2]
      simp [hfind]
    · have h1 : List.find? (fun p : String × EndpointData => decide (p.1 = ep))
          [(k, f defaultEntry)] = none := by
        rw [List.find?_cons_of_neg _ (by simpa using fun h : k = ep => hek h.symm)]
        rfl
      unfold ddLookup ddFind?
      rw [List.find?_append, h1, Option.or_none, if_neg hek]

/-- The per-entry growth relation of the aggregator: counters may only
grow, lists may only gain a suffix. -/
def entryExtends (d d' : EndpointData) : Prop :=
  d.test_count ≤ d'.test_count ∧ d.passed ≤ d'.passed ∧ d.failed ≤ d'.failed ∧
  (∃ tl, d'.status_codes = d.status_codes ++ tl) ∧
  (∃ tl, d'.response_times = d.response_times ++ tl)

theorem entryExtends_refl (d : EndpointData) : entryExtends d d :=
  ⟨le_refl _, le_refl _, le_refl _, ⟨[], by simp⟩, ⟨[], by simp⟩⟩

theorem entryExtends_trans {a b c : EndpointData}
    (h1 : entryExtends a b) (h2 : entryExtends b c) : entryExtends a c := by
  obtain ⟨t1, p1, f1, ⟨s1, hs1⟩, ⟨r1, hr1⟩⟩ := h1
  obtain ⟨t2, p2, f2, ⟨s2, hs2⟩, ⟨r2, hr2⟩⟩ := h2
  exact ⟨le_trans t1 t2, le_trans p1 p2, le_trans f1 f2,
    ⟨s1 ++ s2, by rw [hs2, hs1, List.append_assoc]⟩,
    ⟨r1 ++ r2, by rw [hr2, hr1, List.append_assoc]⟩⟩

theorem applyOp_extends (m : ResultsDict) (op : RecordOp) (ep : String) :
    entryExtends (ddLookup m ep) (ddLookup (applyOp m op) ep) := by
  cases op with
  | appendStatus k c =>
    rw [applyOp, ddLookup_ddUpdate]
    by_cases hek : ep = k
    · rw [if_pos hek, hek]
      exact ⟨le_refl _, le_refl _, le_refl _, ⟨[c], rfl⟩, ⟨[], by simp⟩⟩
    · rw [if_neg hek]
      exact entryExtends_refl _
  | appendTime k t =>
    rw [applyOp, ddLookup_ddUpdate]
    by_cases hek : ep = k
    · rw [if_pos hek, hek]
      exact ⟨le_refl _, le_refl _, le_refl _, ⟨[], by simp⟩, ⟨[t], rfl⟩⟩
    · rw [if_neg hek]
      exact entryExtends_refl _
  | incTestCount k =>
    rw [applyOp, ddLookup_ddUpdate]
    by_cases hek : ep = k
    · rw [if_pos hek, hek]
      exact ⟨Nat.le_succ _, le_refl _, le_refl _, ⟨[], by simp⟩, ⟨[], by simp⟩⟩
    · rw [if_neg hek]
      exact entryExtends_refl _
  | incPassed k =>
    rw [applyOp, ddLookup_ddUpdate]
    by_cases hek : ep = k
    · rw [if_pos hek, hek]
      exact ⟨le_refl _, Nat.le_succ _, le_refl _, ⟨[], by simp⟩, ⟨[], by simp⟩⟩
    · rw [if_neg hek]
      exact entryExtends_refl _
  | incFailed k =>
    rw [applyOp, ddLookup_ddUpdate]
    by_cases hek : ep = k
    · rw [if_pos hek, hek]
      exact ⟨le_refl _, le_refl _, Nat.le_succ _, ⟨[], by simp⟩, ⟨[], by simp⟩⟩
    · rw [if_neg hek]
      exact entryExtends_refl _

theorem applyOps_extends (ops : List RecordOp) (m : ResultsDict) (ep : String) :
    entryExtends (ddLookup m ep) (ddLookup (applyOps m ops) ep) := by
  induction ops generalizing m with
  | nil => exact entryExtends_refl _
  | cons op ops ih =>
    exact entryExtends_trans (applyOp_extends m op ep) (ih (applyOp m op))

/-! ### A lookup lemma for association lists with distinct keys -/

theorem find?_key_of_mem {β : Type} (ps : List (String × β)) (k : String) (b : β)
    (hnd : (ps.map Prod.fst).Nodup) (hmem : (k, b) ∈ ps) :
    ps.find? (fun p => decide (p.1 = k)) = some (k, b) := by
  induction ps with
  | nil => simp at hmem
  | cons p ps ih =>
    rcases List.mem_cons.mp hmem with h | h
    · rw [← h]
      exact List.find?_cons_of_pos _ (by simp)
    · have hk : k ∈ ps.map Prod.fst := List.mem_map.mpr ⟨(k, b), h, rfl⟩
      rw [List.map_cons] at hnd
      have hnd' := List.nodup_cons.mp hnd
      have hne : ¬ p.1 = k := fun he => hnd'.1 (he ▸ hk)
      rw [List.find?_cons_of_neg _ (by simpa using hne)]
      exact ih hnd'.2 h

/-! ### Claim theorems -/

/-- Claim C1: the session-teardown summary classifies every recorded
endpoint into exactly one of three classes from its list of observed status
codes — `"OK"` exactly when at least one 200 was observed and every
observed code is 200, `"UNSTABLE"` exactly when at least one 200 and at
least one non-200 were observed, `"FAILED"` exactly when no 200 was
observed; the printed histogram maps each observed code to its number of
occurrences in the recorded list (and holds no other key); and the average
response time equals the sum of the recorded samples divided by their
count, 0 when no samples were recorded. -/
theorem c1_summary_classification (codes : List Nat) (times : List ℚ) :
    (classifyEndpoint codes = "OK" ↔ (200 ∈ codes ∧ ∀ c ∈ codes, c = 200)) ∧
    (classifyEndpoint codes = "UNSTABLE" ↔
      (200 ∈ codes ∧ ∃ c ∈ codes, c ≠ 200)) ∧
    (classifyEndpoint codes = "FAILED" ↔ 200 ∉ codes) ∧
    (∀ c ∈ codes, distGet (statusDistribution codes) c = some (codes.count c)) ∧
    (∀ c, c ∉ codes → distGet (statusDistribution codes) c = none) ∧
    (times ≠ [] → avgResponseTime times = times.sum / (times.length : ℚ)) ∧
    avgResponseTime [] = 0 := by
  have hok := okCond_iff codes
  refine ⟨?_, ?_, ?_, ?_, ?_, ?_, ?_⟩
  · simp only [classifyEndpoint]
    by_cases h1 : 200 ∈ codes ∧ (statusDistribution codes).length = 1 ∧
        distMem (statusDistribution codes) 200 = true
    · rw [if_pos h1]
      exact ⟨fun _ => hok.mp h1, fun _ => rfl⟩
    · rw [if_neg h1]
      by_cases h2 : 200 ∈ codes
      · rw [if_pos h2]
        exact ⟨fun he => absurd he (by decide), fun hh => absurd (hok.mpr hh) h1⟩
      · rw [if_neg h2]
        exact ⟨fun he => absurd he (by decide), fun hh => absurd hh.1 h2⟩
  · simp only [classifyEndpoint]
    by_cases h1 : 200 ∈ codes ∧ (statusDistribution codes).length = 1 ∧
        distMem (statusDistribution codes) 200 = true
    · rw [if_pos h1]
      refine ⟨fun he => absurd he (by decide), ?_⟩
      rintro ⟨_, c, hc, hne⟩
      exact absurd ((hok.mp h1).2 c hc) hne
    · rw [if_neg h1]
      by_cases h2 : 200 ∈ codes
      · rw [if_pos h2]
        refine ⟨fun _ => ⟨h2, ?_⟩, fun _ => rfl⟩
        have hnot : ¬ (200 ∈ codes ∧ ∀ c ∈ codes, c = 200) :=
          fun hh => h1 (hok.mpr hh)
        push_neg at hnot
        exact hnot h2
      · rw [if_neg h2]
        exact ⟨fun he => absurd he (by decide), fun hh => absurd hh.1 h2⟩
  · simp only [classifyEndpoint]
    by_cases h1 : 200 ∈ codes ∧ (statusDistribution codes).length = 1 ∧
        distMem (statusDistribution codes) 200 = true
    · rw [if_pos h1]
      exact ⟨fun he => absurd he (by decide), fun hh => absurd h1.1 hh⟩
    · rw [if_neg h1]
      by_cases h2 : 200 ∈ codes
      · rw [if_pos h2]
        exact ⟨fun he => absurd he (by decide), fun hh => absurd h2 hh⟩
      · rw [if_neg h2]
        exact ⟨fun _ => h2, fun _ => rfl⟩
  · intro c hc
    rw [distGet_statusDistribution, if_pos hc]
  · intro c hc
    rw [distGet_statusDistribution, if_neg hc]
  · intro h
    simp [avgResponseTime, h]
  · rfl

/-- Claim C1, concrete instance: an endpoint with observed codes 200 and
503 is classified `"UNSTABLE"`, and two samples of 1s and 2s average to
3/2 s. -/
theorem c1_summary_classification_witness :
    classifyEndpoint [200, 503] = "UNSTABLE" ∧
    avgResponseTime [1, 2] = 3 / 2 := by
  have h := c1_summary_classification [200, 503] [1, 2]
  refine ⟨h.2.1.mpr ⟨by decide, 503, by decide, by decide⟩, ?_⟩
  rw [h.2.2.2.2.2.1 (by decide)]
  norm_num

/-- Claim C2 fails as stated: with a schema whose path entry stores its
operations under the lowercase key `"get"`, calling
`get_endpoint_schema("/api/test/1", "GET")` returns the stored mapping even
though the method key `"GET"` itself is absent from the path entry, because
the code looks up `method.lower()`; so the call does not raise exactly when
the given method key is absent. -/
theorem c2_lookup_counterexample :
    get_endpoint_schema
        (SchemaDoc.mk (some [("/api/test/1", [("get", (0 : Nat))])]))
        "/api/test/1" "GET" = .ok 0 ∧
    (∀ q ∈ [("get", (0 : Nat))], q.1 ≠ "GET") := by
  exact ⟨rfl, by decide⟩

/-- Claim C2 (amended): `get_endpoint_schema(path, method)` returns the
mapping stored at `paths[path][method.lower()]` when the path key exists
under `paths` and the lowercased method key exists under that path; it
raises an error naming the missing path when the path is absent, and an
error naming the unsupported method when the path exists but the lowercased
method key is absent. -/
theorem c2_lookup_amended {α : Type} (doc : SchemaDoc α) (path method : String) :
    ((∀ p ∈ doc.paths.getD [], p.1 ≠ path) →
      get_endpoint_schema doc path method = .error (.endpointNotFound path)) ∧
    (∀ ps, doc.paths = some ps → (ps.map Prod.fst).Nodup →
      ∀ ep, (path, ep) ∈ ps →
        ((∀ q ∈ ep, q.1 ≠ pyLower method) →
          get_endpoint_schema doc path method =
            .error (.methodNotSupported method path)) ∧
        ((ep.map Prod.fst).Nodup → ∀ v, (pyLower method, v) ∈ ep →
          get_endpoint_schema doc path method = .ok v)) := by
  constructor
  · intro h
    have hfind : (doc.paths.getD []).find? (fun p => decide (p.1 = path)) = none :=
      List.find?_eq_none.mpr (fun p hp => by simpa using h p hp)
    simp [get_endpoint_schema, hfind]
  · intro ps hps hnd ep hep
    have hfind : ps.find? (fun p => decide (p.1 = path)) = some (path, ep) :=
      find?_key_of_mem ps path ep hnd hep
    constructor
    · intro hq
      have hfind2 : ep.find? (fun q => decide (q.1 = pyLower method)) = none :=
        List.find?_eq_none.mpr (fun q hqq => by simpa using hq q hqq)
      simp [get_endpoint_schema, hps, hfind, hfind2]
    · intro hnd2 v hv
      have hfind2 : ep.find? (fun q => decide (q.1 = pyLower method)) =
          some (pyLower method, v) :=
        find?_key_of_mem ep (pyLower method) v hnd2 hv
      simp [get_endpoint_schema, hps, hfind, hfind2]

/-- Claim C2 (amended), concrete instance: looking up method `"GET"` on a
path whose entry stores key `"get"` returns the stored value. -/
theorem c2_lookup_amended_witness :
    get_endpoint_schema
        (SchemaDoc.mk (some [("/api/test/1", [("get", (7 : Nat))])]))
        "/api/test/1" "GET" = .ok 7 := by
  have h := c2_lookup_amended
    (SchemaDoc.mk (some [("/api/test/1", [("get", (7 : Nat))])]))
    "/api/test/1" "GET"
  exact ((h.2 [("/api/test/1", [("get", (7 : Nat))])] rfl (by decide)
    [("get", (7 : Nat))] (by decide)).2 (by decide) 7 (by decide))

/-- Claim C3: when the cached schema JSON file exists and `force` is false,
`download_schema` returns the cache path unchanged, performs no HTTP
request and no write; in every other state it performs the HTTP GET and, on
a successful response, writes the parsed YAML mapping to the cache file and
returns the same cache path. -/
theorem c3_download_schema {β ε : Type} (schemaDir : String) (st : CacheState β)
    (force : Bool) (http : Except ε String) (parse : String → β) :
    (st.cacheFile.isSome = true → force = false →
      download_schema schemaDir st force http parse =
        ⟨.ok (schemaFilePath schemaDir), st, false⟩) ∧
    (¬ (st.cacheFile.isSome = true ∧ force = false) →
      (download_schema schemaDir st force http parse).requested = true ∧
      (∀ text, http = .ok text →
        download_schema schemaDir st force http parse =
          ⟨.ok (schemaFilePath schemaDir), ⟨some (parse text)⟩, true⟩)) := by
  constructor
  · intro h1 h2
    simp [download_schema, h1, h2]
  · intro h
    constructor
    · unfold download_schema
      rw [if_neg h]
      cases http <;> rfl
    · intro text htext
      subst htext
      unfold download_schema
      rw [if_neg h]

/-- Claim C3, concrete instance: with a populated cache and `force=False`
the call is a no-op returning the cache path. -/
theorem c3_download_schema_witness :
    download_schema "data/schemas" (⟨some 5⟩ : CacheState Nat) false
        (Except.ok "k: v" : Except Unit String) (fun _ => 9) =
      ⟨.ok "data/schemas/openapi_schema.json", ⟨some 5⟩, false⟩ := by
  have h := c3_download_schema "data/schemas" (⟨some 5⟩ : CacheState Nat) false
    (Except.ok "k: v" : Except Unit String) (fun _ => 9)
  exact h.1 rfl rfl

/-- Claim C4: whenever the HTTP download performed by `download_schema`
fails, the method re-raises the underlying HTTP error unchanged, and the
on-disk cache state after the failed call equals the state before it. -/
theorem c4_download_error {β ε : Type} (schemaDir : String) (st : CacheState β)
    (force : Bool) (e : ε) (parse : String → β)
    (h : ¬ (st.cacheFile.isSome = true ∧ force = false)) :
    download_schema schemaDir st force (.error e) parse = ⟨.error e, st, true⟩ := by
  unfold download_schema
  rw [if_neg h]

/-- Claim C4, concrete instance: a failing GET with an empty cache
propagates the error and leaves the cache absent. -/
theorem c4_download_error_witness :
    download_schema "data/schemas" (⟨none⟩ : CacheState Nat) false
        (Except.error "timeout" : Except String String) (fun _ => 9) =
      ⟨.error "timeout", ⟨none⟩, true⟩ := by
  exact c4_download_error "data/schemas" (⟨none⟩ : CacheState Nat) false
    "timeout" (fun _ => 9) (by simp)

/-- Claim C5: `get_all_test_endpoints` returns exactly the keys of the
`paths` mapping that start with `"/api/test/"` (each such key exactly once
when the document's keys are distinct, and with the same multiplicity as in
the key list in general), the returned list is sorted, and a document with
no `paths` key yields the empty list. -/
theorem c5_test_endpoints {α : Type} (doc : SchemaDoc α) :
    (∀ x, x ∈ get_all_test_endpoints doc ↔
      (x ∈ (doc.paths.getD []).map Prod.fst ∧ startswith x "/api/test/" = true)) ∧
    (((doc.paths.getD []).map Prod.fst).Nodup → (get_all_test_endpoints doc).Nodup) ∧
    (get_all_test_endpoints doc).Sorted strLe ∧
    (doc.paths = none → get_all_test_endpoints doc = []) ∧
    (∀ x, (get_all_test_endpoints doc).count x =
      (((doc.paths.getD []).map Prod.fst).filter
        (fun p => startswith p "/api/test/")).count x) := by
  have hperm :
      (get_all_test_endpoints doc).Perm
        (((doc.paths.getD []).map Prod.fst).filter
          (fun p => startswith p "/api/test/")) :=
    List.perm_insertionSort _ _
  refine ⟨?_, ?_, ?_, ?_, ?_⟩
  · intro x
    rw [hperm.mem_iff, List.mem_filter]
  · intro hnd
    exact (hperm.nodup_iff).mpr (hnd.filter _)
  · exact List.sorted_insertionSort strLe _
  · intro h
    simp [get_all_test_endpoints, h]
  · intro x
    exact hperm.count_eq x

/-- Claim C5, concrete instance: a document with distinct keys, two of them
test endpoints listed out of order, yields a duplicate-free result. -/
theorem c5_test_endpoints_witness :
    (get_all_test_endpoints
      (SchemaDoc.mk (some [("/api/test/2", ([] : List (String × Nat))),
        ("/health", []), ("/api/test/1", [])]))).Nodup := by
  exact (c5_test_endpoints
    (SchemaDoc.mk (some [("/api/test/2", ([] : List (String × Nat))),
      ("/health", []), ("/api/test/1", [])]))).2.1 (by decide)

/-- Claim C6 fails as stated: the default-factory record of
`_endpoint_results` does not have four mutable fields — the dict literal in
the source has five keys (`status_codes`, `response_times`, `test_count`,
`passed`, `failed`). -/
theorem c6_entry_counterexample : ¬ (endpointEntryKeys.length = 4) := by
  decide

/-- Claim C6 (amended): the shared result aggregator maps each
endpoint-path string to a record with five mutable fields (status code
list, response time list, test count, passed count, failed count); for
every endpoint key the record is created lazily on first access by the
default factory, with both lists empty and every counter zero, while a
present entry is returned with the mapping unchanged. -/
theorem c6_entry_amended (m : ResultsDict) (k : String) :
    (ddHasKey m k = false →
      ddAccess m k = (defaultEntry, m ++ [(k, defaultEntry)])) ∧
    (∀ d, ddFind? m k = some d → ddAccess m k = (d, m)) ∧
    defaultEntry.status_codes = [] ∧
    defaultEntry.response_times = [] ∧
    defaultEntry.test_count = 0 ∧
    defaultEntry.passed = 0 ∧
    defaultEntry.failed = 0 ∧
    endpointEntryKeys.length = 5 := by
  refine ⟨?_, ?_, rfl, rfl, rfl, rfl, rfl, by decide⟩
  · intro hb
    have hno :
        ∀ p ∈ m, ¬ (fun p : String × EndpointData => decide (p.1 = k)) p = true :=
      List.any_eq_false.mp (by simpa [ddHasKey] using hb)
    have hfind : m.find? (fun p : String × EndpointData => decide (p.1 = k)) = none :=
      List.find?_eq_none.mpr hno
    simp [ddAccess, hfind]
  · intro d hd
    rcases hfind : m.find? (fun p : String × EndpointData => decide (p.1 = k)) with _ | p
    · simp [ddFind?, hfind] at hd
    · have : p.2 = d := by simpa [ddFind?, hfind] using hd
      simp [ddAccess, hfind, this]

/-- Claim C6 (amended), concrete instance: accessing a missing key creates
the all-zero entry at the end of the mapping. -/
theorem c6_entry_amended_witness :
    ddAccess [] "/api/test/1" =
      (defaultEntry, [("/api/test/1", defaultEntry)]) := by
  exact (c6_entry_amended [] "/api/test/1").1 rfl

/-- Claim C7: every recording operation a test function performs on the
aggregator only appends to the status-code and response-time lists and only
adds non-negative amounts to the counters, so over any sequence of
recording operations each counter of each endpoint entry is non-decreasing
and the lists only grow by a suffix — no element is removed or replaced. -/
theorem c7_aggregator_monotone (ops : List RecordOp) (m : ResultsDict) (ep : String) :
    (ddLookup m ep).test_count ≤ (ddLookup (applyOps m ops) ep).test_count ∧
    (ddLookup m ep).passed ≤ (ddLookup (applyOps m ops) ep).passed ∧
    (ddLookup m ep).failed ≤ (ddLookup (applyOps m ops) ep).failed ∧
    (∃ tl, (ddLookup (applyOps m ops) ep).status_codes =
      (ddLookup m ep).status_codes ++ tl) ∧
    (∃ tl, (ddLookup (applyOps m ops) ep).response_times =
      (ddLookup m ep).response_times ++ tl) :=
  applyOps_extends ops m ep

/-- Claim C8: when the HTTP request inside `do_request` raises a request
exception, the worker increments the endpoint's `test_count` and `failed`
counters by one each, leaves the status-code and response-time lists
unchanged, and returns a result with `ok = False` and `status = 0`; hence
after a session an endpoint's `test_count` can strictly exceed the length
of its status-code list. -/
theorem c8_do_request_failure (m : ResultsDict) (ep : String) (i : Nat)
    (e : String) (t : ℚ) :
    (do_request m ep i (.failure e t)).2 = ⟨i, 0, t, false, some e⟩ ∧
    ddLookup (do_request m ep i (.failure e t)).1 ep =
      { ddLookup m ep with
        test_count := (ddLookup m ep).test_count + 1,
        failed := (ddLookup m ep).failed + 1 } ∧
    (ddLookup (do_request [] ep 0 (.failure e t)).1 ep).status_codes.length <
      (ddLookup (do_request [] ep 0 (.failure e t)).1 ep).test_count := by
  have hkey : ∀ (m' : ResultsDict),
      ddLookup (do_request m' ep i (.failure e t)).1 ep =
        { ddLookup m' ep with
          test_count := (ddLookup m' ep).test_count + 1,
          failed := (ddLookup m' ep).failed + 1 } := by
    intro m'
    simp only [do_request]
    rw [ddLookup_ddUpdate, if_pos rfl, ddLookup_ddUpdate, if_pos rfl]
  refine ⟨rfl, hkey m, ?_⟩
  have h0 : ddLookup (do_request [] ep 0 (.failure e t)).1 ep =
      { ddLookup ([] : ResultsDict) ep with
        test_count := (ddLookup ([] : ResultsDict) ep).test_count + 1,
        failed := (ddLookup ([] : ResultsDict) ep).failed + 1 } := by
    simp only [do_request]
    rw [ddLookup_ddUpdate, if_pos rfl, ddLookup_ddUpdate, if_pos rfl]
  rw [h0]
  simp [ddLookup, ddFind?, defaultEntry]

/-- Claim C9: the summary orders endpoints by parsing the substring after
the last `/` of each recorded key as a decimal integer; the sort succeeds
exactly when every recorded key's last segment parses, the sorted list is a
permutation of the keys, and a key like the health endpoint path makes the
sort raise `ValueError` (modelled as `none`) instead of printing. -/
theorem c9_summary_sort (keys : List String) (l : List String) :
    ((sortEndpoints? keys).isSome ↔ ∀ k ∈ keys, (summarySortKey? k).isSome) ∧
    (sortEndpoints? keys = some l → l.Perm keys) ∧
    summarySortKey? "/api/health" = none ∧
    summarySortKey? "/api/test/3" = some 3 := by
  refine ⟨?_, ?_, by decide, by decide⟩
  · by_cases h : ∀ k ∈ keys, (summarySortKey? k).isSome = true
    · simp [sortEndpoints?, h]
    · simp only [sortEndpoints?, if_neg h]
      simpa using h
  · intro hsome
    by_cases h : ∀ k ∈ keys, (summarySortKey? k).isSome = true
    · rw [sortEndpoints?, if_pos h] at hsome
      have hl := Option.some.inj hsome
      rw [← hl]
      exact List.perm_insertionSort _ keys
    · rw [sortEndpoints?, if_neg h] at hsome
      exact absurd hsome (by simp)

/-- Claim C9, concrete instance: two numeric test-endpoint keys sort by
their trailing integers, giving a permutation of the recorded keys. -/
theorem c9_summary_sort_witness :
    (["/api/test/1", "/api/test/2"] : List String).Perm
      ["/api/test/2", "/api/test/1"] := by
  exact (c9_summary_sort ["/api/test/2", "/api/test/1"]
    ["/api/test/1", "/api/test/2"]).2.1 (by decide)

/-- Claim C10: on a non-200 auth-generate status the session-scoped
`auth_token` fixture does not raise because of the status — its result is
independent of the status and still reads `access_token` from the body —
while the function-scoped `fresh_auth_token` fixture raises for every
non-200 status before reading the body; moreover `fresh_auth_token` always
sends `verify=False` regardless of the SSL_VERIFY setting, while
`auth_token` uses the configured value. -/
theorem c10_auth_fixtures (sslVerify : Bool) (resp : AuthResponse) :
    (auth_token sslVerify resp).verify = sslVerify ∧
    (fresh_auth_token sslVerify resp).verify = false ∧
    (∀ s, (auth_token sslVerify { resp with status := s }).result =
      (auth_token sslVerify resp).result) ∧
    (resp.status ≠ 200 →
      (fresh_auth_token sslVerify resp).result = .error (.badStatus resp.status)) ∧
    (∀ v, resp.body.find? (fun p => decide (p.1 = "access_token")) = some v →
      (auth_token sslVerify resp).result = .ok v.2) := by
  refine ⟨rfl, rfl, fun s => rfl, ?_, ?_⟩
  · intro h
    simp [fresh_auth_token, HTTP_OK, h]
  · intro v hv
    simp [auth_token, hv]

/-- Claim C10, concrete instance: on a 500 response `fresh_auth_token`
raises while `auth_token` still returns the token from the body. -/
theorem c10_auth_fixtures_witness :
    (fresh_auth_token true ⟨500, [("access_token", "tok")]⟩).result =
      .error (.badStatus 500) ∧
    (auth_token true ⟨500, [("access_token", "tok")]⟩).result = .ok "tok" := by
  have h := c10_auth_fixtures true ⟨500, [("access_token", "tok")]⟩
  exact ⟨h.2.2.2.1 (by decide), h.2.2.2.2 ("access_token", "tok") rfl⟩

end QaHarness
